import Mathlib

/-! # A verification development for the upbound/provider-terraform core

This file gives a shallow embedding of the key algorithms of the
provider-terraform repository and proves theorems about them:

* the Terraform CLI process harness (`internal/terraform/terraform.go`):
  error classification, plan/error artifact encoding, the `Diff` (plan)
  exit-code interpretation, the `Outputs` listing, and the lock discipline
  guarding the shared plugin cache;
* the Workspace reconciliation logic
  (`internal/controller/workspace/workspace.go`): `checkDiff`, `Observe`,
  the checksum-guarded tail of `Connect`, `op2cd` and
  `generateWorkspaceObservation`;
* the working-directory garbage collector (`internal/workdir/workdir.go`);
* the sharding hash (`internal/utils/utils.go`).

Machine integers are modelled as `Nat`/`Int` with explicit `% 2^32` where
the Go code works with 32-bit quantities; fallible Go code is modelled with
`Option`/`Except`.
-/

namespace ProviderTf

/-! ## Bytes and UTF-8

Go strings are byte strings.  We model a byte as a `Nat` (< 256 by
construction of the operations below) and a Go string by its UTF-8 byte
list, produced by `utf8Bytes` from a Lean `String`. -/

/-- Standard UTF-8 encoding of a single code point. -/
def utf8EncodeCharNat (n : Nat) : List Nat :=
  if n < 0x80 then [n]
  else if n < 0x800 then [0xC0 + n / 64, 0x80 + n % 64]
  else if n < 0x10000 then [0xE0 + n / 4096, 0x80 + n / 64 % 64, 0x80 + n % 64]
  else [0xF0 + n / 262144, 0x80 + n / 4096 % 64, 0x80 + n / 64 % 64, 0x80 + n % 64]

/-- The UTF-8 byte list of a string (how Go sees a `string` / `[]byte`). -/
def utf8Bytes (s : String) : List Nat :=
  s.data.foldr (fun c acc => utf8EncodeCharNat c.toNat ++ acc) []

/-- `strings.Join(parts, sep)`. -/
def goJoin (sep : String) : List String → String
  | [] => ""
  | [x] => x
  | x :: xs => x ++ sep ++ goJoin sep xs

/-! ## encoding/base64 (StdEncoding)

`base64.StdEncoding.EncodeToString`, modelled byte-for-byte from the RFC
4648 standard alphabet with `=` padding, used by the harness to encode
gzipped plan/error artifacts. -/

/-- The standard base64 alphabet. -/
def b64Alphabet : List Char :=
  "ABCDEFGHIJKLMNOPQRSTUVWXYZabcdefghijklmnopqrstuvwxyz0123456789+/".data

/-- The character for a 6-bit group. -/
def b64Char (n : Nat) : Char := b64Alphabet.getD n 'A'

/-- Encode a byte list in groups of three bytes to four characters. -/
def b64Chunks : List Nat → List Char
  | [] => []
  | [a] => [b64Char (a / 4), b64Char (a % 4 * 16), '=', '=']
  | [a, b] => [b64Char (a / 4), b64Char (a % 4 * 16 + b / 16), b64Char (b % 16 * 4), '=']
  | a :: b :: c :: rest =>
      b64Char (a / 4) :: b64Char (a % 4 * 16 + b / 16) ::
      b64Char (b % 16 * 4 + c / 64) :: b64Char (c % 64) :: b64Chunks rest

/-- `base64.StdEncoding.EncodeToString`. -/
def base64EncodeToString (bytes : List Nat) : String := String.mk (b64Chunks bytes)

/-! ## compress/gzip

The harness gzip-compresses plan and error text before base64-encoding it.
We model the gzip member format: the fixed 10-byte header Go's
`gzip.NewWriter` emits (deflate method, no flags, zero mtime, unknown OS),
a DEFLATE payload, and the CRC-32/ISIZE trailer.  The DEFLATE payload is
modelled with stored (uncompressed) blocks; nothing in this development
depends on the compressed bit-stream, only on the framing (in particular
that the encoded artifact is never empty). -/

/-- One round of the CRC-32 (IEEE) bit loop. -/
def crc32Bit (c : Nat) : Nat := if c % 2 = 1 then (c / 2) ^^^ 0xEDB88320 else c / 2

/-- CRC-32 update by one byte. -/
def crc32Byte (c b : Nat) : Nat := Nat.iterate crc32Bit 8 ((c ^^^ b) % 2 ^ 32)

/-- CRC-32 (IEEE) of a byte list, as written into the gzip trailer. -/
def crc32 (data : List Nat) : Nat := (data.foldl crc32Byte 0xFFFFFFFF) ^^^ 0xFFFFFFFF

/-- A 32-bit value in little-endian byte order. -/
def u32le (n : Nat) : List Nat := [n % 256, n / 256 % 256, n / 65536 % 256, n / 16777216 % 256]

/-- A single DEFLATE stored block (the payload holds at most 0xFFFF bytes). -/
def storedBlock (final : Bool) (chunk : List Nat) : List Nat :=
  (if final then 1 else 0) :: (chunk.length % 256) :: (chunk.length / 256) ::
    ((65535 - chunk.length) % 256) :: ((65535 - chunk.length) / 256) :: chunk

/-- A DEFLATE stream of stored blocks. -/
def deflateStored (data : List Nat) : List Nat :=
  if _h : data.length ≤ 65535 then storedBlock true data
  else storedBlock false (data.take 65535) ++ deflateStored (data.drop 65535)
termination_by data.length
decreasing_by
  simp only [List.length_drop]
  omega

/-- The fixed gzip member header written by `gzip.NewWriter` with default
settings (magic, CM=8, FLG=0, MTIME=0, XFL=0, OS=255). -/
def gzipHeader : List Nat := [31, 139, 8, 0, 0, 0, 0, 0, 0, 255]

/-- `gzip` compression of a byte list: header, DEFLATE payload, CRC-32 and
length trailer. -/
def gzipCompress (data : List Nat) : List Nat :=
  gzipHeader ++ deflateStored data ++ u32le (crc32 data) ++ u32le (data.length % 2 ^ 32)

/-! ## Error classification (`terraform.go`: `Classify`,
`formatTerraformErrorOutput`, `formatTerraformPlanOutput`)

Terraform often returns a summary of the error it encountered on a single
line, prefixed with `Error: `.  The harness matches the regular expression
`Error: (.+)\n` against the captured stderr.  `matchAt` models one
anchored match attempt of that pattern at the head of the text: the
literal `Error: ` must be present, `(.+)` greedily takes the non-newline
characters that follow (at least one), and the trailing `\n` must exist.
`findTfErrorAux` models the engine's leftmost search, advancing one
position at a time. -/

/-- One anchored attempt of `Error: (.+)\n` at the head of the text. -/
def matchAt (cs : List Char) : Option (List Char) :=
  if "Error: ".data.isPrefixOf cs then
    let rest := cs.drop 7
    let seg := rest.takeWhile (fun ch => ch ≠ '\n')
    if seg ≠ [] ∧ rest.dropWhile (fun ch => ch ≠ '\n') ≠ [] then some seg else none
  else none

/-- Leftmost match of `Error: (.+)\n` (the capture group), as
`tfError.FindSubmatch` computes it. -/
def findTfErrorAux : List Char → Option (List Char)
  | [] => none
  | c :: cs =>
    match matchAt (c :: cs) with
    | some seg => some seg
    | none => findTfErrorAux cs

/-- `formatTerraformErrorOutput`: the human summary (the capture of the
first `Error: (.+)\n` match, or the zero value `""` when there is none)
and the gzipped, base64-encoded full error text.  The
`len(lines) > 0` guard in the source is always true (`strings.Split`
returns at least one element), and writing to the in-memory gzip buffer
cannot fail, so the Go function's error result is always nil and is
dropped here. -/
def formatTerraformErrorOutput (errorOutput : String) : String × String :=
  let summary : String :=
    match findTfErrorAux errorOutput.data with
    | some m => String.mk m
    | none => ""
  (summary, base64EncodeToString (gzipCompress (utf8Bytes errorOutput)))

/-- `formatTerraformPlanOutput`: gzip + base64 of the captured plan text. -/
def formatTerraformPlanOutput (output : String) : String :=
  base64EncodeToString (gzipCompress (utf8Bytes output))

/-- A subprocess failure (`*exec.ExitError`): non-zero exit code plus the
captured stderr. -/
structure ExitError where
  exitCode : Nat
  stderr : String
deriving DecidableEq

/-- The message `Classify` builds for a subprocess failure. -/
def classifyMessage (stderr : String) : String :=
  let p := formatTerraformErrorOutput stderr
  "Terraform encountered an error. Summary: " ++ p.1 ++
    ". To see the full error run: echo \"" ++ p.2 ++ "\" | base64 -d | gunzip"

/-- `Classify`: a nil error (or, in the full Go code, any error that is not
an `exec.ExitError`) passes through unchanged; an exit error is replaced by
the summary-plus-encoded-blob message.  Subprocess errors in this model are
exactly the exit errors, so the pass-through case is `none ↦ none`. -/
def Classify : Option ExitError → Option String
  | none => none
  | some e => some (classifyMessage e.stderr)

/-! ## The plan operation (`Harness.Diff`) -/

/-- The sentinel text returned when the plan has no changes. -/
def noDiffInPlan : String := "No change in the terraform plan"

/-- The outcome of `runCommand` for a completed subprocess: its exit code
and captured stdout/stderr. -/
structure CmdResult where
  exitCode : Nat
  stdout : String
  stderr : String
deriving DecidableEq

/-- `cmd.Output()`'s error result: nil on exit code 0, an
`exec.ExitError` carrying stderr otherwise. -/
def execError (r : CmdResult) : Option ExitError :=
  if r.exitCode = 0 then none else some ⟨r.exitCode, r.stderr⟩

/-- `Harness.Diff` interprets `terraform plan -detailed-exitcode`:
exit code 2 returns a difference together with the encoded plan artifact
and a nil error; every other exit code falls through to
`(false, noDiffInPlan, Classify(err))` (the `case 1` arm of the source's
switch only logs).  Encoding the plan artifact writes to an in-memory
buffer and cannot fail, so that error branch is dead here. -/
def Diff (r : CmdResult) : Bool × String × Option String :=
  match r.exitCode with
  | 2 => (true, formatTerraformPlanOutput r.stdout, none)
  | _ => (false, noDiffInPlan, Classify (execError r))

/-! ## Terraform outputs (`Harness.Outputs`, `op2cd`,
`generateWorkspaceObservation`)

`terraform output -json` yields a JSON object mapping output names to
records with `sensitive`, `value` and `type` fields.  Decoded JSON values
(`interface⁠`-typed in Go) are modelled by `JsonVal`; numbers are modelled
as integers (the development never depends on numeric formatting).
`json.Marshal` of an already-decoded JSON value cannot fail, so
`JSONValue` is modelled total; its string-escaping detail is kept minimal
for the same reason. -/

inductive JsonVal where
  | null
  | bool (b : Bool)
  | num (n : Int)
  | str (s : String)
  | arr (elems : List JsonVal)
  | obj (fields : List (String × JsonVal))

mutual

/-- `json.Marshal` of a decoded value (modulo string escaping and numeric
formatting, on which nothing here depends). -/
def serialize : JsonVal → String
  | .null => "null"
  | .bool true => "true"
  | .bool false => "false"
  | .num n => toString n
  | .str s => "\"" ++ s ++ "\""
  | .arr xs => "[" ++ goJoin "," (serializeList xs) ++ "]"
  | .obj fs => "\x7b" ++ goJoin "," (serializeFields fs) ++ "\x7d"

def serializeList : List JsonVal → List String
  | [] => []
  | x :: xs => serialize x :: serializeList xs

def serializeFields : List (String × JsonVal) → List String
  | [] => []
  | f :: fs => ("\"" ++ f.1 ++ "\":" ++ serialize f.2) :: serializeFields fs

end

/-- Terraform output types. -/
inductive OutputType where
  | unknown
  | string
  | number
  | bool
  | tuple
  | object
deriving DecidableEq

/-- `outputType`: map the type tag to an `OutputType`. -/
def outputType (t : String) : OutputType :=
  match t with
  | "string" => .string
  | "number" => .number
  | "bool" => .bool
  | "tuple" => .tuple
  | "object" => .object
  | _ => .unknown

/-- An `Output` from Terraform. -/
structure Output where
  name : String
  sensitive : Bool
  type : OutputType
  value : JsonVal

/-- `Output.StringValue`: the value when it is a string, else the zero
value. -/
def StringValue : JsonVal → String
  | .str s => s
  | _ => ""

/-- One entry of the decoded `terraform output -json` object: the
`sensitive` flag, the decoded value, and the raw `type` field (a string
for simple types, an array whose first element is a string for compound
types). -/
structure RawOutput where
  sensitive : Bool
  value : JsonVal
  type : JsonVal

/-- The type tag extraction in `Harness.Outputs`: `t` starts as
`"unknown"`, is replaced by the tag when `type` is a string, or by the
first element when `type` is a non-empty array whose first element is a
string. -/
def typeTag (t : JsonVal) : String :=
  match t with
  | .str s => s
  | .arr (x :: _) =>
    match x with
    | .str s => s
    | _ => "unknown"
  | _ => "unknown"

/-- Go's `<` on strings: byte-wise lexicographic comparison.  Comparing
the code points is equivalent, since UTF-8 preserves lexicographic
order. -/
def lexLess : List Char → List Char → Bool
  | [], [] => false
  | [], _ :: _ => true
  | _ :: _, [] => false
  | a :: as, b :: bs => if a < b then true else if b < a then false else lexLess as bs

/-- `a < b` for Go strings. -/
def goStringLess (a b : String) : Bool := lexLess a.data b.data

/-- `Harness.Outputs` after decoding: build one `Output` per object entry
(the entry list is the Go map's enumeration, in arbitrary order) and sort
by name with `sort.Slice(o, func(i, j) ... o[i].Name < o[j].Name)`.  The
unstable sort is modelled by `mergeSort` under the negated reversed
comparison (the non-strict order induced by `Less`), which is observably
equivalent: a permutation of the input that is sorted with respect to the
comparison. -/
def Outputs (entries : List (String × RawOutput)) : List Output :=
  let o := entries.map fun e =>
    Output.mk e.1 e.2.sensitive (outputType (typeTag e.2.type)) e.2.value
  o.mergeSort fun a b => !goStringLess b.name a.name

/-- Assignment to a Go `map` key: overwrite the binding if the key is
present, otherwise add it. -/
def upsert (m : List (String × String)) (k v : String) : List (String × String) :=
  match m with
  | [] => [(k, v)]
  | kv :: rest => if kv.1 = k then (k, v) :: rest else kv :: upsert rest k v

/-- `op2cd`: connection details from the outputs.  Every output lands in
the map — string-typed outputs via `StringValue`, all others via their
(infallible) JSON serialization. -/
def op2cd (o : List Output) : List (String × String) :=
  o.foldl
    (fun cd op =>
      if op.type = OutputType.string then upsert cd op.name (StringValue op.value)
      else upsert cd op.name (serialize op.value))
    []

/-- `generateWorkspaceObservation`: only non-sensitive outputs are copied
into the Workspace status, each as its (infallible) JSON serialization. -/
def generateWorkspaceObservation (op : List Output) : List (String × String) :=
  op.foldl
    (fun wo o => if o.sensitive then wo else upsert wo o.name (serialize o.value))
    []

/-- The key set of a modelled Go map. -/
def keys (m : List (String × String)) : List String := m.map Prod.fst

/-! ## The Workspace controller (`workspace.go`: `checkDiff`, `Observe`,
the checksum-guarded tail of `Connect`)

The controller talks to the harness through the `tfclient` interface.  A
reconcile's interactions are modelled by recording, for each operation the
code may invoke, the result it would return.  `errors.Wrap(err, msg)`
renders as `msg: err`. -/

/-- `errors.Wrap`: contextualize an error message. -/
def wrap (e msg : String) : String := msg ++ ": " ++ e

def errDiff : String := "cannot diff (i.e. plan) Terraform configuration"
def errResources : String := "cannot list Terraform resources"
def errOutputs : String := "cannot list Terraform outputs"
def errChecksum : String := "cannot calculate workspace checksum"
def errDeleteWorkspace : String := "cannot delete Terraform workspace"
def errInit : String := "cannot initialize Terraform configuration"
def errWorkspace : String := "cannot select Terraform workspace"

/-- The results the `tfclient` would hand back to `Observe` for the one
reconcile being modelled.  `diff` is `tf.Diff`'s (differs, plan text,
error) triple; the remaining fields model the other calls `Observe` can
make. -/
structure TfState where
  diff : Bool × String × Option String
  resources : Except String (List String)
  outputs : Except String (List Output)
  deleteWorkspaceErr : Option String
  checksum : Except String String

/-- `external.checkDiff`: run the plan; on a plan error, surface it wrapped
in `errDiff` unless the Workspace was deleted (tombstoned), in which case
the error is dropped and `differs` is forced to false so that reconciliation
can continue toward deletion. -/
def checkDiff (wasDeleted : Bool) (d : Bool × String × Option String) :
    Except String (Bool × String) :=
  match d with
  | (differs, planOutput, err) =>
    match err with
    | none => .ok (differs, planOutput)
    | some e => if wasDeleted then .ok (false, planOutput) else .error (wrap e errDiff)

/-- What `Observe` reports to the managed reconciler. -/
structure Observation where
  resourceExists : Bool
  resourceUpToDate : Bool
  connectionDetails : List (String × String)

/-- `external.Observe`, returning whether `DeleteCurrentWorkspace` was
invoked together with the observation or the surfaced error:
check the diff, list resources, delete the current sub-workspace when the
Workspace is tombstoned and no resources remain, read outputs (folded into
status via `generateWorkspaceObservation`, not tracked here), record the
checksum, and report existence as `len(r)+len(op) > 0` and up-to-dateness
as `!differs`. -/
def Observe (wasDeleted : Bool) (st : TfState) : Bool × Except String Observation :=
  match checkDiff wasDeleted st.diff with
  | .error e => (false, .error e)
  | .ok (differs, _planOutput) =>
    match st.resources with
    | .error e => (false, .error (wrap e errResources))
    | .ok r =>
      let rest : Except String Observation :=
        match st.outputs with
        | .error e => .error (wrap e errOutputs)
        | .ok op =>
          match st.checksum with
          | .error e => .error (wrap e errChecksum)
          | .ok _cs =>
            .ok ⟨decide (r.length + op.length > 0), !differs, op2cd op⟩
      if wasDeleted ∧ r.length = 0 then
        match st.deleteWorkspaceErr with
        | some e => (true, .error (wrap e errDeleteWorkspace))
        | none => (true, rest)
      else (false, rest)

/-- The `tfclient` results the tail of `Connect` may consume. -/
structure ConnectTf where
  checksum : Except String String
  initErr : Option String
  workspaceErr : Option String

/-- What the tail of `Connect` did: whether `terraform init` was run,
whether the sub-workspace selection (`tf.Workspace`) was invoked, and the
returned error if any. -/
structure ConnectOutcome where
  ranInit : Bool
  ranWorkspaceSelect : Bool
  err : Option String

/-- The shared "run init, then select the sub-workspace" tail of
`Connect`. -/
def initAndSelect (tf : ConnectTf) : ConnectOutcome :=
  match tf.initErr with
  | some e => ⟨true, false, some (wrap e errInit)⟩
  | none => ⟨true, true, tf.workspaceErr.map (fun e => wrap e errWorkspace)⟩

/-- The checksum-guarded tail of `connector.Connect` (workspace.go lines
727-748): when the Workspace status carries a non-empty checksum, compute
a fresh one; if they match, skip `init` and go straight to selecting the
sub-workspace, otherwise (and also when no checksum was recorded) run
`init` and then select the sub-workspace. -/
def connectFinish (recordedChecksum : String) (tf : ConnectTf) : ConnectOutcome :=
  if recordedChecksum ≠ "" then
    match tf.checksum with
    | .error e => ⟨false, false, some (wrap e errChecksum)⟩
    | .ok checksum =>
      if recordedChecksum = checksum then
        ⟨false, true, tf.workspaceErr.map (fun e => wrap e errWorkspace)⟩
      else initAndSelect tf
  else initAndSelect tf

/-! ## The working-directory garbage collector (`workdir.go`)

`GarbageCollector.collect` lists the live Workspace UIDs, reads the
parent directory, and removes every directory entry that is a directory,
whose name parses as a UUID, and whose name is not live; removal failures
are collected and reported as one aggregated error after the loop. -/

/-- `unicode` simple folding restricted to the characters of
`urn:uuid:`, for which Go's `strings.EqualFold` coincides with ASCII
case folding. -/
def asciiEqFold (a b : Char) : Bool := a.toLower = b.toLower

/-- A hexadecimal digit (`xtob` accepts `0-9`, `a-f`, `A-F`). -/
def isHexDigit (c : Char) : Bool :=
  ('0' ≤ c && c ≤ '9') || ('a' ≤ c && c ≤ 'f') || ('A' ≤ c && c ≤ 'F')

/-- One `xtob` call: the byte pair at offset `i` must be two hex digits. -/
def hexPairOk (cs : List Char) (i : Nat) : Bool :=
  isHexDigit (cs.getD i ' ') && isHexDigit (cs.getD (i + 1) ' ')

/-- The `xxxxxxxx-xxxx-xxxx-xxxx-xxxxxxxxxxxx` core accepted by
`uuid.Parse`: hyphens at offsets 8, 13, 18 and 23 and sixteen hex byte
pairs at the offsets the source enumerates.  (In the braced form the
candidate is one character longer and its trailing character is never
inspected, faithfully to the source.) -/
def uuidBodyOk (cs : List Char) : Bool :=
  cs.getD 8 ' ' = '-' && cs.getD 13 ' ' = '-' && cs.getD 18 ' ' = '-' &&
  cs.getD 23 ' ' = '-' &&
  [0, 2, 4, 6, 9, 11, 14, 16, 19, 21, 24, 26, 28, 30, 32, 34].all (hexPairOk cs)

/-- `isUUID`: whether `uuid.Parse` accepts the directory name.  Accepted
shapes, dispatched on length like the library does: the plain 36-byte
form, the `urn:uuid:`-prefixed form, the braced form (whose closing byte
the library never checks), and the 32-byte undashed hex form. -/
def isUUID (u : String) : Bool :=
  let cs := u.data
  match cs.length with
  | 36 => uuidBodyOk cs
  | 45 =>
    ((cs.take 9).zip "urn:uuid:".data).all (fun p => asciiEqFold p.1 p.2) &&
      uuidBodyOk (cs.drop 9)
  | 38 => uuidBodyOk (cs.drop 1)
  | 32 => cs.all isHexDigit
  | _ => false

/-- One entry of `fs.ReadDir`. -/
structure DirEntry where
  name : String
  isDir : Bool
deriving DecidableEq

/-- `filepath.Join(parentDir, name)` for a clean parent directory. -/
def joinPath (parentDir name : String) : String := parentDir ++ "/" ++ name

/-- The loop of `GarbageCollector.collect` (workdir.go lines 124-136):
walk the directory entries in order, skip anything that is not a
directory or whose name is not a UUID, skip live directories, and
`RemoveAll` the rest; a failed removal keeps the directory on disk and
records its path.  Returns (remaining entries, failed paths in order).
`removeFails` says which paths `RemoveAll` would fail on. -/
def collectLoop (live : List String) (parentDir : String)
    (removeFails : String → Bool) : List DirEntry → List DirEntry × List String
  | [] => ([], [])
  | e :: rest =>
    let r := collectLoop live parentDir removeFails rest
    if !e.isDir || !isUUID e.name then (e :: r.1, r.2)
    else if live.contains e.name then (e :: r.1, r.2)
    else if removeFails (joinPath parentDir e.name) then
      (e :: r.1, joinPath parentDir e.name :: r.2)
    else r

/-- `GarbageCollector.collect` after a successful list+readdir: run the
removal loop, then aggregate any failures into a single error. -/
def collect (live : List String) (parentDir : String)
    (removeFails : String → Bool) (entries : List DirEntry) :
    List DirEntry × Option String :=
  let r := collectLoop live parentDir removeFails entries
  (r.1,
    if r.2.isEmpty then none
    else some ("could not delete directories: " ++ goJoin ", " r.2))

/-! ## The sharding hash (`utils.go`: `HashAndModulo`) -/

/-- One byte of FNV-1a (32 bit): XOR the byte in, multiply by the FNV
prime, keep 32 bits. -/
def fnv32aStep (h b : Nat) : Nat := ((h ^^^ b) * 16777619) % 2 ^ 32

/-- `fnv.New32a` + `Write` + `Sum32`: fold the FNV-1a step over the bytes
starting from the 32-bit offset basis. -/
def fnv32a (data : List Nat) : Nat := data.foldl fnv32aStep 2166136261

/-- `HashAndModulo`: the stable 32-bit hash of the identifier reduced
modulo the replica count.  Go's `%` on `int` is truncated division
(`Int.tmod`); the dividend `int(hash)` is the non-negative 32-bit hash
(Go's `int` is 64-bit on both supported platforms, linux/amd64 and
linux/arm64). -/
def HashAndModulo (str : String) (modulo : Int) : Int :=
  Int.tmod (Int.ofNat (fnv32a (utf8Bytes str))) modulo

/-! ## The plugin-cache lock discipline (`terraform.go`: `rwmutex`)

A process-wide `sync.RWMutex` protects the shared Terraform plugin cache.
Each harness operation is modelled as the sequence of lock events and
subprocess launches it performs (in source order; the deferred unlocks
are emitted at function return).  All locking is conditional on
`h.UsePluginCache`. -/

/-- One step of a harness operation. -/
inductive Step where
  | lockRead
  | unlockRead
  | lockWrite
  | unlockWrite
  | run (argv : List String)
deriving DecidableEq

/-- Emit a step only when the plugin cache is in use. -/
def lockIf (cache : Bool) (s : Step) : List Step := if cache then [s] else []

/-- `Harness.Init`: write-lock the cache (when used) around
`terraform init -input=false -no-color ...`. -/
def initSteps (cache : Bool) (extraArgs : List String) : List Step :=
  lockIf cache .lockWrite ++
    [.run (["init", "-input=false", "-no-color"] ++ extraArgs)] ++
    lockIf cache .unlockWrite

/-- `Harness.Workspace`: try `workspace select` without any lock; only on
failure fall back to `workspace new`, read-locking around it. -/
def workspaceSteps (cache selectSucceeds : Bool) (name : String) : List Step :=
  [.run ["workspace", "select", "-no-color", name]] ++
    if selectSucceeds then []
    else
      lockIf cache .lockRead ++ [.run ["workspace", "new", "-no-color", name]] ++
        lockIf cache .unlockRead

/-- `Harness.DeleteCurrentWorkspace` on its success path: show the current
sub-workspace; if it is not `default`, select `default` (via
`Harness.Workspace`) and read-lock around `workspace delete`.
`selectSucceeds`/`newSucceeds` describe the fallback inside the inner
selection; if both fail the function returns before the delete. -/
def deleteCurrentWorkspaceSteps (cache : Bool) (currentName : String)
    (selectSucceeds newSucceeds : Bool) : List Step :=
  [.run ["workspace", "show", "-no-color"]] ++
    if currentName = "default" then []
    else
      workspaceSteps cache selectSucceeds "default" ++
        if selectSucceeds || newSucceeds then
          lockIf cache .lockRead ++
            [.run ["workspace", "delete", "-no-color", currentName]] ++
            lockIf cache .unlockRead
        else []

/-- `Harness.GenerateChecksum`: one `/bin/sh -c` running the md5sum
pipeline (whose literal text is irrelevant here); no lock is taken. -/
def generateChecksumSteps (_cache : Bool) : List Step :=
  [.run ["/bin/sh", "-c", "find md5sum pipeline"]]

/-- `Harness.Outputs`: read-lock around `terraform output -json`. -/
def outputsSteps (cache : Bool) : List Step :=
  lockIf cache .lockRead ++ [.run ["output", "-json"]] ++ lockIf cache .unlockRead

/-- `Harness.Resources`: read-lock around `terraform state list`. -/
def resourcesSteps (cache : Bool) : List Step :=
  lockIf cache .lockRead ++ [.run ["state", "list"]] ++ lockIf cache .unlockRead

/-- `Harness.Diff`: `terraform plan` with `-lock=false`; the `rwmutex` is
intentionally not locked (terraform.go lines 929-931) to avoid excessive
blocking. -/
def diffSteps (_cache : Bool) (args : List String) : List Step :=
  [.run (["plan", "-no-color", "-input=false", "-detailed-exitcode",
    "-lock=false"] ++ args)]

/-- `Harness.Apply`: read-lock around `terraform apply`. -/
def applySteps (cache : Bool) (args : List String) : List Step :=
  lockIf cache .lockRead ++
    [.run (["apply", "-no-color", "-auto-approve", "-input=false"] ++ args)] ++
    lockIf cache .unlockRead

/-- `Harness.Destroy`: read-lock around `terraform destroy`. -/
def destroySteps (cache : Bool) (args : List String) : List Step :=
  lockIf cache .lockRead ++
    [.run (["destroy", "-no-color", "-auto-approve", "-input=false"] ++ args)] ++
    lockIf cache .unlockRead

/-- Is this step a shared (read) acquisition? -/
def isLockRead : Step → Bool
  | .lockRead => true
  | _ => false

/-- Is this step an exclusive (write) acquisition? -/
def isLockWrite : Step → Bool
  | .lockWrite => true
  | _ => false

/-- Whether a trace acquires the shared (read) side of the lock. -/
def acquiresRead (tr : List Step) : Bool := tr.any isLockRead

/-- Whether a trace acquires the exclusive (write) side of the lock. -/
def acquiresWrite (tr : List Step) : Bool := tr.any isLockWrite

/-! ## Helper lemmas -/

lemma b64Chunks_ne_nil (a : Nat) (l : List Nat) : b64Chunks (a :: l) ≠ [] := by
  cases l with
  | nil => simp [b64Chunks]
  | cons b t =>
    cases t with
    | nil => simp [b64Chunks]
    | cons c r => simp [b64Chunks]

lemma base64EncodeToString_cons_ne_empty (a : Nat) (l : List Nat) :
    base64EncodeToString (a :: l) ≠ "" := by
  intro h
  apply b64Chunks_ne_nil a l
  calc b64Chunks (a :: l) = (base64EncodeToString (a :: l)).data := rfl
    _ = ("" : String).data := by rw [h]
    _ = [] := rfl

lemma formatTerraformPlanOutput_ne_empty (s : String) :
    formatTerraformPlanOutput s ≠ "" := by
  unfold formatTerraformPlanOutput gzipCompress gzipHeader
  exact base64EncodeToString_cons_ne_empty _ _

lemma matchAt_nil : matchAt [] = none := by decide

lemma findTfErrorAux_eq_some (i : Nat) :
    ∀ (cs seg : List Char), matchAt (cs.drop i) = some seg →
      (∀ j, j < i → matchAt (cs.drop j) = none) →
      findTfErrorAux cs = some seg := by
  induction i with
  | zero =>
    intro cs seg h _
    cases cs with
    | nil => rw [List.drop_nil, matchAt_nil] at h; exact absurd h (by simp)
    | cons c cs' =>
      simp only [List.drop] at h
      unfold findTfErrorAux
      rw [h]
  | succ i ih =>
    intro cs seg h hmin
    cases cs with
    | nil => rw [List.drop_nil, matchAt_nil] at h; exact absurd h (by simp)
    | cons c cs' =>
      have h0 : matchAt (c :: cs') = none := by simpa using hmin 0 (Nat.succ_pos i)
      unfold findTfErrorAux
      rw [h0]
      exact ih cs' seg (by simpa using h)
        (fun j hj => by simpa using hmin (j + 1) (Nat.succ_lt_succ hj))

lemma findTfErrorAux_eq_none :
    ∀ (cs : List Char), (∀ j, matchAt (cs.drop j) = none) →
      findTfErrorAux cs = none := by
  intro cs
  induction cs with
  | nil => intro _; rfl
  | cons c cs' ih =>
    intro h
    have h0 : matchAt (c :: cs') = none := by simpa using h 0
    unfold findTfErrorAux
    rw [h0]
    exact ih (fun j => by simpa using h (j + 1))

/-! ## Claim C1: the plan exit-code mapping -/

/-- C1, counterexample.  The claim states that exit code 1 yields
(no-difference, **empty** text, an error); in fact `Harness.Diff` falls
through to the `noDiffInPlan` sentinel on exit code 1, so the returned
text is not empty. -/
theorem diff_exit_one_counterexample :
    Diff ⟨1, "", "boom\n"⟩ =
        (false, "No change in the terraform plan", Classify (some ⟨1, "boom\n"⟩)) ∧
      ("No change in the terraform plan" : String) ≠ "" ∧
      Classify (some ⟨1, "boom\n"⟩) ≠ none := by
  refine ⟨rfl, by decide, ?_⟩
  simp [Classify]

/-- C1, amended: the exit-code mapping of `Harness.Diff` is exhaustive and
exclusive — exit code 0 yields (no-difference, the sentinel text, no
error); exit code 2 yields (difference, a non-empty encoded plan artifact,
no error); exit code 1 yields (no-difference, the **sentinel** text — not
empty text — and a classified error). -/
theorem diff_exit_code_mapping (r : CmdResult) :
    (r.exitCode = 0 → Diff r = (false, noDiffInPlan, none)) ∧
    (r.exitCode = 2 →
      Diff r = (true, formatTerraformPlanOutput r.stdout, none) ∧
        formatTerraformPlanOutput r.stdout ≠ "") ∧
    (r.exitCode = 1 →
      Diff r = (false, noDiffInPlan, some (classifyMessage r.stderr)) ∧
        noDiffInPlan ≠ "") := by
  obtain ⟨ec, out, serr⟩ := r
  refine ⟨fun h => ?_, fun h => ⟨?_, ?_⟩, fun h => ⟨?_, by decide⟩⟩ <;>
    (try subst h) <;>
    simp [Diff, execError, Classify, formatTerraformPlanOutput_ne_empty]

/-- C1 witness: the three mapping cases evaluated on concrete command
results. -/
theorem diff_exit_code_mapping_witness :
    Diff ⟨0, "", ""⟩ = (false, noDiffInPlan, none) ∧
      Diff ⟨2, "plan text", ""⟩ =
        (true, formatTerraformPlanOutput "plan text", none) ∧
      Diff ⟨1, "", "Error: x\n"⟩ =
        (false, noDiffInPlan, some (classifyMessage "Error: x\n")) := by
  refine ⟨(diff_exit_code_mapping ⟨0, "", ""⟩).1 rfl, ?_, ?_⟩
  · exact ((diff_exit_code_mapping ⟨2, "plan text", ""⟩).2.1 rfl).1
  · exact ((diff_exit_code_mapping ⟨1, "", "Error: x\n"⟩).2.2 rfl).1

/-! ## Claim C3: error-summary classification -/

/-- C3, counterexample.  The claim states the summary is the matched text
case-normalized and that, with no `Error:` line, the summary falls back to
the first non-empty line.  In fact the summary keeps its case
(`"Boom"`, not `"boom"`), and with no match it is the empty string, not
the first non-empty line. -/
theorem classification_counterexample :
    (formatTerraformErrorOutput "Error: Boom\n").1 = "Boom" ∧
      ("Boom" : String) ≠ "boom" ∧
      (formatTerraformErrorOutput "something failed\nmore\n").1 = "" ∧
      ("" : String) ≠ "something failed" :=
  ⟨rfl, by decide, rfl, by decide⟩

/-- C3, amended: for error text whose leftmost `Error: (.+)\n` match
captures `X`, the classification summary equals `X` verbatim (no case
normalization); for error text with no such match the summary is the
empty string (not the first non-empty line). -/
theorem error_summary_extraction (s : String) :
    (∀ i seg, matchAt (s.data.drop i) = some seg →
        (∀ j, j < i → matchAt (s.data.drop j) = none) →
        (formatTerraformErrorOutput s).1 = String.mk seg) ∧
      ((∀ j, matchAt (s.data.drop j) = none) →
        (formatTerraformErrorOutput s).1 = "") := by
  constructor
  · intro i seg h hmin
    simp only [formatTerraformErrorOutput]
    rw [findTfErrorAux_eq_some i s.data seg h hmin]
  · intro h
    simp only [formatTerraformErrorOutput]
    rw [findTfErrorAux_eq_none s.data h]

/-- C3 witness: the leftmost match of `Error: Boom\n` is at position 0
and captures `Boom`, and the summary is exactly `Boom`. -/
theorem error_summary_extraction_witness :
    matchAt ("Error: Boom\n".data.drop 0) = some "Boom".data ∧
      (formatTerraformErrorOutput "Error: Boom\n").1 = String.mk "Boom".data :=
  ⟨by decide,
    (error_summary_extraction "Error: Boom\n").1 0 "Boom".data (by decide)
      (fun j hj => absurd hj (Nat.not_lt_zero j))⟩

/-! ## Claim C2: Observe of a tombstoned Workspace with a failing plan -/

/-- C2, counterexample.  The claim states that when the Workspace is
tombstoned, the plan fails and a tracked resource remains, `Observe`
surfaces the plan error.  In fact `checkDiff` suppresses the plan error
for every tombstoned Workspace regardless of remaining resources:
here one tracked resource remains and `Observe` still returns a
successful observation (and, as the claim expects, does not delete the
sub-workspace). -/
theorem observe_tombstoned_counterexample :
    Observe true
        ⟨(false, "", some "plan failed"), .ok ["module.a.b"], .ok [], none,
          .ok "abc"⟩ =
      (false, .ok ⟨true, true, []⟩) := rfl

/-- C2, amended: when a tombstoned Workspace's plan errors (and the
remaining calls succeed), `Observe` suppresses the plan error
unconditionally — it returns a successful observation whether or not
tracked resources remain — deletes the current sub-workspace exactly when
zero tracked resources remain, reports existence as
`len(resources) + len(outputs) > 0`, and reports the resource up to date. -/
theorem observe_tombstoned_plan_error
    (d : Bool) (p e c : String) (r : List String) (ops : List Output)
    (st : TfState)
    (hdiff : st.diff = (d, p, some e))
    (hres : st.resources = .ok r)
    (hops : st.outputs = .ok ops)
    (hcs : st.checksum = .ok c)
    (hdel : st.deleteWorkspaceErr = none) :
    Observe true st =
      (decide (r.length = 0),
        .ok ⟨decide (r.length + ops.length > 0), true, op2cd ops⟩) := by
  obtain ⟨df, rs, os, de, ch⟩ := st
  simp only at hdiff hres hops hcs hdel
  subst hdiff hres hops hcs hdel
  simp only [Observe, checkDiff]
  by_cases hr : r.length = 0 <;> simp [hr]

/-- C2 witness: a tombstoned Workspace whose plan errored, with no
resources and no outputs left — the sub-workspace is deleted, no error is
returned and the resource is reported absent. -/
theorem observe_tombstoned_plan_error_witness :
    Observe true ⟨(false, "", some "boom"), .ok [], .ok [], none, .ok "s"⟩ =
      (true, .ok ⟨false, true, []⟩) := by
  have h := observe_tombstoned_plan_error false "" "boom" "s" [] []
    ⟨(false, "", some "boom"), .ok [], .ok [], none, .ok "s"⟩ rfl rfl rfl rfl rfl
  simpa using h

/-! ## Claim C4: the checksum guard in Connect -/

/-- C4: for a Workspace with a recorded non-empty checksum whose fresh
checksum computation succeeds, the tail of `Connect` runs `init` exactly
when the fresh checksum differs from the recorded one, and in either case
(when `init` does not fail) it still invokes sub-workspace selection
before returning. -/
theorem connect_checksum_guard (recorded cs : String) (tf : ConnectTf)
    (hrec : recorded ≠ "") (hcs : tf.checksum = .ok cs) :
    ((connectFinish recorded tf).ranInit = decide (recorded ≠ cs)) ∧
      (recorded = cs → (connectFinish recorded tf).ranWorkspaceSelect = true) ∧
      (recorded ≠ cs → tf.initErr = none →
        (connectFinish recorded tf).ranWorkspaceSelect = true) := by
  obtain ⟨c, ie, we⟩ := tf
  simp only at hcs
  subst hcs
  by_cases h : recorded = cs
  · subst h
    simp [connectFinish, hrec]
  · have hinit : (initAndSelect ⟨.ok cs, ie, we⟩).ranInit = true := by
      cases ie <;> simp [initAndSelect]
    refine ⟨?_, fun hc => absurd hc h, fun _ hie => ?_⟩
    · simp [connectFinish, hrec, h, hinit]
    · simp only at hie
      subst hie
      simp [connectFinish, hrec, h, initAndSelect]

/-- C4 witness: matching checksums skip `init` but still select the
sub-workspace; differing checksums run `init` and still select the
sub-workspace. -/
theorem connect_checksum_guard_witness :
    ("abc" : String) ≠ "" ∧
      (connectFinish "abc" ⟨.ok "abc", none, none⟩).ranInit = false ∧
      (connectFinish "abc" ⟨.ok "abc", none, none⟩).ranWorkspaceSelect = true ∧
      (connectFinish "abc" ⟨.ok "xyz", none, none⟩).ranInit = true ∧
      (connectFinish "abc" ⟨.ok "xyz", none, none⟩).ranWorkspaceSelect = true := by
  have h1 := connect_checksum_guard "abc" "abc" ⟨.ok "abc", none, none⟩
    (by decide) rfl
  have h2 := connect_checksum_guard "abc" "xyz" ⟨.ok "xyz", none, none⟩
    (by decide) rfl
  refine ⟨by decide, ?_, h1.2.1 rfl, ?_, h2.2.2 (by decide) rfl⟩
  · simpa using h1.1
  · simpa using h2.1

/-! ## Claims C5 and C8: the garbage collector -/

lemma collectLoop_fst (live : List String) (parent : String)
    (fails : String → Bool) :
    ∀ entries : List DirEntry,
      (collectLoop live parent fails entries).1 =
        entries.filter fun e =>
          !(e.isDir && isUUID e.name && !live.contains e.name &&
            !fails (joinPath parent e.name)) := by
  intro entries
  induction entries with
  | nil => rfl
  | cons e rest ih =>
    by_cases hd : e.isDir = true <;> by_cases hu : isUUID e.name = true <;>
      by_cases hl : live.contains e.name = true <;>
      by_cases hf : fails (joinPath parent e.name) = true <;>
      simp_all [collectLoop, List.filter_cons]

lemma collectLoop_snd (live : List String) (parent : String)
    (fails : String → Bool) :
    ∀ entries : List DirEntry,
      (collectLoop live parent fails entries).2 =
        (entries.filter fun e =>
          e.isDir && isUUID e.name && !live.contains e.name &&
            fails (joinPath parent e.name)).map
          fun e => joinPath parent e.name := by
  intro entries
  induction entries with
  | nil => rfl
  | cons e rest ih =>
    by_cases hd : e.isDir = true <;> by_cases hu : isUUID e.name = true <;>
      by_cases hl : live.contains e.name = true <;>
      by_cases hf : fails (joinPath parent e.name) = true <;>
      simp_all [collectLoop, List.filter_cons]

/-- C5: in a cycle where every removal succeeds, the surviving directory
entries are exactly the on-disk directories that are live or whose names
do not parse as UUIDs — i.e. (D ∩ L) ∪ non-identifier directories — and,
for any removal behaviour and any live set, a directory whose name is not
a UUID is never removed. -/
theorem gc_post_directory_set (live : List String) (parent : String)
    (entries : List DirEntry) (e : DirEntry) :
    ((e ∈ (collect live parent (fun _ => false) entries).1 ∧ e.isDir = true) ↔
      (e ∈ entries ∧ e.isDir = true ∧
        (live.contains e.name = true ∨ isUUID e.name = false))) ∧
    (∀ removeFails : String → Bool, e ∈ entries → e.isDir = true →
      isUUID e.name = false → e ∈ (collect live parent removeFails entries).1) := by
  constructor
  · simp only [collect, collectLoop_fst, List.mem_filter]
    by_cases hd : e.isDir = true <;> by_cases hu : isUUID e.name = true <;>
      by_cases hl : live.contains e.name = true <;> simp_all
  · intro removeFails he hd hu
    simp only [collect, collectLoop_fst, List.mem_filter]
    exact ⟨he, by simp [hu]⟩

/-- C5 witness: a non-UUID directory (`plugin-cache`) survives a cycle
that removes everything it can (`removeFails` never fails and the live
set is empty). -/
theorem gc_post_directory_set_witness :
    (⟨"plugin-cache", true⟩ : DirEntry) ∈
      (collect [] "/tf" (fun _ => false) [⟨"plugin-cache", true⟩]).1 :=
  (gc_post_directory_set [] "/tf" [⟨"plugin-cache", true⟩]
    ⟨"plugin-cache", true⟩).2 (fun _ => false) (by simp) rfl (by decide)

lemma collect_snd_eq_none_iff (live : List String) (parent : String)
    (removeFails : String → Bool) (entries : List DirEntry) :
    (collect live parent removeFails entries).2 = none ↔
      (collectLoop live parent removeFails entries).2 = [] := by
  simp only [collect]
  split
  · rename_i hemp
    rw [List.isEmpty_iff] at hemp
    simp [hemp]
  · rename_i hemp
    have hne : (collectLoop live parent removeFails entries).2 ≠ [] := by
      intro hnil
      exact hemp (by simp [hnil])
    simp [hne]

/-- C8: a failed removal does not abort the cycle — every stale directory
whose removal succeeds is removed even when other removals fail; the loop
collects the path of every failing stale directory, in order; and the
cycle reports no error exactly when no removal failed, otherwise a single
error aggregating all failed paths. -/
theorem gc_aggregates_removal_failures (live : List String) (parent : String)
    (removeFails : String → Bool) (entries : List DirEntry) :
    (∀ e : DirEntry, e ∈ entries → e.isDir = true → isUUID e.name = true →
      live.contains e.name = false →
      removeFails (joinPath parent e.name) = false →
      e ∉ (collect live parent removeFails entries).1) ∧
    ((collectLoop live parent removeFails entries).2 =
      (entries.filter fun e =>
        e.isDir && isUUID e.name && !live.contains e.name &&
          removeFails (joinPath parent e.name)).map
        fun e => joinPath parent e.name) ∧
    ((collect live parent removeFails entries).2 = none ↔
      ∀ e : DirEntry, e ∈ entries → e.isDir = true → isUUID e.name = true →
        live.contains e.name = false →
        removeFails (joinPath parent e.name) = false) ∧
    ((collect live parent removeFails entries).2 = none ∨
      (collect live parent removeFails entries).2 =
        some ("could not delete directories: " ++
          goJoin ", " ((entries.filter fun e =>
            e.isDir && isUUID e.name && !live.contains e.name &&
              removeFails (joinPath parent e.name)).map
            fun e => joinPath parent e.name))) := by
  refine ⟨?_, collectLoop_snd live parent removeFails entries, ?_, ?_⟩
  · intro e he hd hu hl hf hmem
    rw [collect] at hmem
    simp only [collectLoop_fst, List.mem_filter] at hmem
    simp [hd, hu, hf] at hmem
    simp at hl
    exact hl hmem.2
  · rw [collect_snd_eq_none_iff, collectLoop_snd, List.map_eq_nil_iff,
      List.filter_eq_nil_iff]
    constructor
    · intro h e he hd hu hl
      have := h e he
      simp [hd, hu] at this
      exact this (by simpa using hl)
    · intro h e he
      simp
      intro hd hu hl
      exact h e he hd hu (by simpa using hl)
  · simp only [collect, collectLoop_snd]
    split
    · exact Or.inl rfl
    · exact Or.inr rfl

/-- C8 witness: three stale UUID directories, of which the first two fail
to remove — the third is still removed (no abort) and the cycle reports
one aggregated error naming both failed paths. -/
theorem gc_aggregates_removal_failures_witness :
    (⟨"33333333-3333-3333-3333-333333333333", true⟩ : DirEntry) ∉
        (collect [] "/tf"
          (fun p => p == "/tf/11111111-1111-1111-1111-111111111111" ||
            p == "/tf/22222222-2222-2222-2222-222222222222")
          [⟨"11111111-1111-1111-1111-111111111111", true⟩,
            ⟨"22222222-2222-2222-2222-222222222222", true⟩,
            ⟨"33333333-3333-3333-3333-333333333333", true⟩]).1 ∧
      (collect [] "/tf"
          (fun p => p == "/tf/11111111-1111-1111-1111-111111111111" ||
            p == "/tf/22222222-2222-2222-2222-222222222222")
          [⟨"11111111-1111-1111-1111-111111111111", true⟩,
            ⟨"22222222-2222-2222-2222-222222222222", true⟩,
            ⟨"33333333-3333-3333-3333-333333333333", true⟩]).2 =
        some ("could not delete directories: " ++
          "/tf/11111111-1111-1111-1111-111111111111, " ++
          "/tf/22222222-2222-2222-2222-222222222222") := by
  refine ⟨(gc_aggregates_removal_failures [] "/tf" _ _).1
    ⟨"33333333-3333-3333-3333-333333333333", true⟩ (by decide) rfl (by decide)
    (by decide) (by decide), by decide⟩

/-! ## Claim C6: the sharding hash -/

lemma fnv32a_lt (data : List Nat) : fnv32a data < 2 ^ 32 := by
  have key : ∀ (l : List Nat) (h : Nat), h < 2 ^ 32 →
      l.foldl fnv32aStep h < 2 ^ 32 := by
    intro l
    induction l with
    | nil => intro h hh; simpa using hh
    | cons b t ih =>
      intro h hh
      simp only [List.foldl_cons]
      exact ih _ (Nat.mod_lt _ (by norm_num))
  exact key _ _ (by norm_num)

/-- C6: for any identifier and any replica count R ≥ 1, the owning index
is in [0, R).  The model is a pure function of the pair
(identifier, replica count) built only from the bytes of the identifier,
so determinism across restarts and architectures is definitional. -/
theorem hash_and_modulo_range (s : String) (R : Int) (h : 1 ≤ R) :
    fnv32a (utf8Bytes s) < 2 ^ 32 ∧
      0 ≤ HashAndModulo s R ∧ HashAndModulo s R < R := by
  unfold HashAndModulo
  exact ⟨fnv32a_lt _, Int.tmod_nonneg R (Int.ofNat_nonneg _),
    Int.tmod_lt_of_pos _ (by omega)⟩

/-- C6 witness: the identifier `a` with three replicas is owned by an
index in [0, 3) (concretely, index 1). -/
theorem hash_and_modulo_range_witness :
    (1 : Int) ≤ 3 ∧ 0 ≤ HashAndModulo "a" 3 ∧ HashAndModulo "a" 3 < 3 ∧
      HashAndModulo "a" 3 = 1 :=
  ⟨by decide, (hash_and_modulo_range "a" 3 (by decide)).2.1,
    (hash_and_modulo_range "a" 3 (by decide)).2.2, by decide⟩

/-! ## Claim C7: status outputs and connection details -/

lemma keys_upsert (m : List (String × String)) (k' v k : String) :
    k ∈ keys (upsert m k' v) ↔ k = k' ∨ k ∈ keys m := by
  induction m with
  | nil => simp [upsert, keys]
  | cons kv rest ih =>
    by_cases h : kv.1 = k'
    · simp only [upsert, h, if_true, keys, List.map_cons, List.mem_cons]
      simp only [keys] at *
      tauto
    · simp only [upsert, h, if_false, ite_false, keys, List.map_cons,
        List.mem_cons]
      simp only [keys] at ih
      rw [ih]
      tauto

lemma mem_keys_op2cd_foldl (l : List Output) :
    ∀ (acc : List (String × String)) (k : String),
      k ∈ keys (l.foldl
        (fun cd op =>
          if op.type = OutputType.string then
            upsert cd op.name (StringValue op.value)
          else upsert cd op.name (serialize op.value))
        acc) ↔
      k ∈ keys acc ∨ ∃ o, o ∈ l ∧ o.name = k := by
  induction l with
  | nil => simp
  | cons o l ih =>
    intro acc k
    simp only [List.foldl_cons]
    rw [ih]
    have hstep : k ∈ keys
        (if o.type = OutputType.string then
          upsert acc o.name (StringValue o.value)
        else upsert acc o.name (serialize o.value)) ↔
        k = o.name ∨ k ∈ keys acc := by
      split <;> rw [keys_upsert]
    rw [hstep]
    simp only [List.mem_cons]
    constructor
    · rintro ((h | h) | h)
      · exact Or.inr ⟨o, Or.inl rfl, h.symm⟩
      · exact Or.inl h
      · obtain ⟨x, hx, hn⟩ := h
        exact Or.inr ⟨x, Or.inr hx, hn⟩
    · rintro (h | ⟨x, (hx | hx), hn⟩)
      · exact Or.inl (Or.inr h)
      · subst hx
        exact Or.inl (Or.inl hn.symm)
      · exact Or.inr ⟨x, hx, hn⟩

lemma mem_keys_genwo_foldl (l : List Output) :
    ∀ (acc : List (String × String)) (k : String),
      k ∈ keys (l.foldl
        (fun wo o => if o.sensitive then wo else upsert wo o.name (serialize o.value))
        acc) ↔
      k ∈ keys acc ∨ ∃ o, o ∈ l ∧ o.name = k ∧ o.sensitive = false := by
  induction l with
  | nil => simp
  | cons o l ih =>
    intro acc k
    simp only [List.foldl_cons]
    rw [ih]
    by_cases hs : o.sensitive
    · simp only [hs, if_true]
      constructor
      · rintro (h | ⟨x, hx, hn, hsen⟩)
        · exact Or.inl h
        · exact Or.inr ⟨x, List.mem_cons_of_mem o hx, hn, hsen⟩
      · rintro (h | ⟨x, hx, hn, hsen⟩)
        · exact Or.inl h
        · rcases List.mem_cons.mp hx with hx | hx
          · subst hx
            rw [hs] at hsen
            exact absurd hsen (by simp)
          · exact Or.inr ⟨x, hx, hn, hsen⟩
    · have hs' : o.sensitive = false := by simpa using hs
      rw [hs', if_neg Bool.false_ne_true, keys_upsert]
      constructor
      · rintro ((h | h) | ⟨x, hx, hn, hsen⟩)
        · exact Or.inr ⟨o, List.mem_cons_self o l, h.symm, hs'⟩
        · exact Or.inl h
        · exact Or.inr ⟨x, List.mem_cons_of_mem o hx, hn, hsen⟩
      · rintro (h | ⟨x, hx, hn, hsen⟩)
        · exact Or.inl (Or.inr h)
        · rcases List.mem_cons.mp hx with hx | hx
          · subst hx
            exact Or.inl (Or.inl hn.symm)
          · exact Or.inr ⟨x, hx, hn, hsen⟩

/-- C7: for every output list, the Workspace status outputs map keys are
exactly the names of the non-sensitive outputs (sensitive outputs never
appear in status), while the connection-details map contains every output
— sensitive or not — keyed by output name. -/
theorem status_and_connection_detail_keys (op : List Output) (n : String) :
    (n ∈ keys (generateWorkspaceObservation op) ↔
      ∃ o, o ∈ op ∧ o.name = n ∧ o.sensitive = false) ∧
    (n ∈ keys (op2cd op) ↔ ∃ o, o ∈ op ∧ o.name = n) := by
  constructor
  · rw [generateWorkspaceObservation, mem_keys_genwo_foldl]
    simp [keys]
  · rw [op2cd, mem_keys_op2cd_foldl]
    simp [keys]

/-! ## Claim C9: the plugin-cache lock discipline -/

/-- C9, counterexample.  The claim states that every non-init operation —
including plan — acquires the shared (read) side of the plugin-cache
lock.  In fact `Harness.Diff` intentionally takes no lock at all (see the
comment at terraform.go lines 929-931). -/
theorem plan_lock_counterexample :
    acquiresRead (diffSteps true []) = false ∧
      acquiresWrite (diffSteps true []) = false := by decide

/-- C9, amended: with the plugin cache in use, `init` acquires the
exclusive (write) side only; `apply`, `destroy`, `outputs`,
`state list` and the `workspace new` fallback acquire the shared (read)
side only; `plan`, the checksum, and a successful `workspace select`
acquire no lock at all; and with the plugin cache disabled no operation
locks. -/
theorem plugin_cache_lock_discipline (args : List String) (name : String) :
    (acquiresWrite (initSteps true args) = true ∧
      acquiresRead (initSteps true args) = false) ∧
    (acquiresRead (applySteps true args) = true ∧
      acquiresWrite (applySteps true args) = false) ∧
    (acquiresRead (destroySteps true args) = true ∧
      acquiresWrite (destroySteps true args) = false) ∧
    (acquiresRead (outputsSteps true) = true ∧
      acquiresWrite (outputsSteps true) = false) ∧
    (acquiresRead (resourcesSteps true) = true ∧
      acquiresWrite (resourcesSteps true) = false) ∧
    (acquiresRead (workspaceSteps true false name) = true ∧
      acquiresWrite (workspaceSteps true false name) = false) ∧
    (acquiresRead (diffSteps true args) = false ∧
      acquiresWrite (diffSteps true args) = false) ∧
    (acquiresRead (generateChecksumSteps true) = false ∧
      acquiresWrite (generateChecksumSteps true) = false) ∧
    (acquiresRead (workspaceSteps true true name) = false ∧
      acquiresWrite (workspaceSteps true true name) = false) ∧
    (acquiresRead (initSteps false args) = false ∧
      acquiresWrite (initSteps false args) = false ∧
      acquiresRead (applySteps false args) = false ∧
      acquiresRead (outputsSteps false) = false ∧
      acquiresRead (workspaceSteps false false name) = false) := by
  simp [initSteps, applySteps, destroySteps, outputsSteps, resourcesSteps,
    workspaceSteps, diffSteps, generateChecksumSteps, lockIf, acquiresRead,
    acquiresWrite, isLockRead, isLockWrite]

/-! ## Claim C10: outputs are sorted by name -/

lemma lexLess_asymm : ∀ (as bs : List Char),
    lexLess as bs = true → lexLess bs as = false := by
  intro as
  induction as with
  | nil =>
    intro bs h
    cases bs with
    | nil => simp [lexLess] at h
    | cons b bs => simp [lexLess]
  | cons a as ih =>
    intro bs h
    cases bs with
    | nil => simp [lexLess] at h
    | cons b bs =>
      by_cases hab : a < b
      · simp [lexLess, hab, lt_asymm hab]
      · by_cases hba : b < a
        · simp [lexLess, hab, hba] at h
        · have hrec := ih bs (by simpa [lexLess, hab, hba] using h)
          simp [lexLess, hab, hba, hrec]

lemma lexLess_trans : ∀ (as bs cs : List Char),
    lexLess as bs = true → lexLess bs cs = true → lexLess as cs = true := by
  intro as
  induction as with
  | nil =>
    intro bs cs h1 h2
    cases bs with
    | nil => simp [lexLess] at h1
    | cons b bs =>
      cases cs with
      | nil => simp [lexLess] at h2
      | cons c cs => simp [lexLess]
  | cons a as ih =>
    intro bs cs h1 h2
    cases bs with
    | nil => simp [lexLess] at h1
    | cons b bs =>
      cases cs with
      | nil => simp [lexLess] at h2
      | cons c cs =>
        by_cases hab : a < b
        · by_cases hbc : b < c
          · simp [lexLess, lt_trans hab hbc]
          · by_cases hcb : c < b
            · simp [lexLess, hbc, hcb] at h2
            · have hbceq : b = c := le_antisymm (not_lt.mp hcb) (not_lt.mp hbc)
              subst hbceq
              simp [lexLess, hab]
        · by_cases hba : b < a
          · simp [lexLess, hab, hba] at h1
          · have habeq : a = b := le_antisymm (not_lt.mp hba) (not_lt.mp hab)
            subst habeq
            by_cases hac : a < c
            · simp [lexLess, hac]
            · by_cases hca : c < a
              · simp [lexLess, hac, hca] at h2
              · have haceq : a = c := le_antisymm (not_lt.mp hca) (not_lt.mp hac)
                subst haceq
                have h1' : lexLess as bs = true := by
                  simpa [lexLess, lt_irrefl] using h1
                have h2' : lexLess bs cs = true := by
                  simpa [lexLess, lt_irrefl] using h2
                simpa [lexLess, lt_irrefl] using ih bs cs h1' h2'

lemma lexLess_connex : ∀ (as bs : List Char),
    lexLess as bs = false → lexLess bs as = false → as = bs := by
  intro as
  induction as with
  | nil =>
    intro bs h1 _
    cases bs with
    | nil => rfl
    | cons b bs => simp [lexLess] at h1
  | cons a as ih =>
    intro bs h1 h2
    cases bs with
    | nil => simp [lexLess] at h2
    | cons b bs =>
      by_cases hab : a < b
      · simp [lexLess, hab] at h1
      · by_cases hba : b < a
        · simp [lexLess, hba] at h2
        · have habeq : a = b := le_antisymm (not_lt.mp hba) (not_lt.mp hab)
          subst habeq
          have h1' : lexLess as bs = false := by
            simpa [lexLess, lt_irrefl] using h1
          have h2' : lexLess bs as = false := by
            simpa [lexLess, lt_irrefl] using h2
          exact congrArg (a :: ·) (ih bs h1' h2')

lemma lexGe_trans (as bs cs : List Char) (h1 : lexLess bs as = false)
    (h2 : lexLess cs bs = false) : lexLess cs as = false := by
  cases hca : lexLess cs as with
  | false => rfl
  | true =>
    exfalso
    cases hbc : lexLess bs cs with
    | false =>
      have heq := lexLess_connex bs cs hbc h2
      rw [heq] at h1
      rw [h1] at hca
      exact Bool.false_ne_true hca
    | true =>
      have := lexLess_trans bs cs as hbc hca
      rw [h1] at this
      exact Bool.false_ne_true this

lemma lexGe_total (as bs : List Char) :
    ((!lexLess bs as) || (!lexLess as bs)) = true := by
  cases h : lexLess bs as
  · simp
  · simp [lexLess_asymm bs as h]

/-- C10: for any enumeration order of the decoded output object, the
output list `Harness.Outputs` returns is sorted in ascending order by
output name (no later output's name is less, in Go string order, than an
earlier one's), and it is a permutation of the outputs built from the
enumeration. -/
theorem outputs_sorted_by_name (entries : List (String × RawOutput)) :
    List.Pairwise (fun a b : Output => goStringLess b.name a.name = false)
        (Outputs entries) ∧
      (Outputs entries).Perm (entries.map fun e =>
        Output.mk e.1 e.2.sensitive (outputType (typeTag e.2.type)) e.2.value) := by
  have htrans : ∀ (a b c : Output), (!goStringLess b.name a.name) = true →
      (!goStringLess c.name b.name) = true →
      (!goStringLess c.name a.name) = true := by
    intro a b c h1 h2
    simp only [goStringLess, Bool.not_eq_true'] at h1 h2 ⊢
    exact lexGe_trans _ _ _ h1 h2
  have htotal : ∀ (a b : Output),
      ((!goStringLess b.name a.name) || (!goStringLess a.name b.name)) = true := by
    intro a b
    simp only [goStringLess]
    exact lexGe_total _ _
  constructor
  · refine (List.sorted_mergeSort htrans htotal _).imp ?_
    intro a b h
    simpa using h
  · exact List.mergeSort_perm _ _

end ProviderTf
